import Mathlib

/-!
Shallow embedding of the labnotebook-app core (src/web/src/App.tsx and
src/web/src/domain/types.ts): the block model, the change-queue / sync
engine, the mock remote simulator, the Markdown export transform and the
entity-store project creation, together with proofs about them.

Machine integers from the source (the 32-bit FNV-1a hash) are modelled as
Nat with explicit reduction modulo 2^32; JavaScript records are modelled
as association lists; fallible code returns Except.  Fresh-id generation
(crypto.randomUUID) is an external effect and is passed in as a String
parameter wherever the source calls it.
-/

/-- Text alignment values accepted by `isTextAlignValue` in App.tsx. -/
inductive TextAlign where
  | left | center | right | justify
deriving DecidableEq, Repr

/-- `TextRun` from domain/types.ts: a formatted span of text.  The three
mark fields are optional booleans exactly as in the TypeScript interface. -/
structure TextRun where
  text : String
  bold : Option Bool := none
  italic : Option Bool := none
  underline : Option Bool := none
deriving DecidableEq, Repr

/-- `ChecklistItem` from domain/types.ts. -/
structure ChecklistItem where
  id : String
  text : String
  done : Bool
  timerMinutes : Option Nat := none
  runs : Option (List TextRun) := none
deriving DecidableEq, Repr

/-- The variant payload of the `Block` tagged union from domain/types.ts.
`headerRow` is the runtime field read via `block.headerRow` in App.tsx. -/
inductive BlockVariant where
  | heading (text : String) (level : Option Nat) (runs : Option (List TextRun))
  | paragraph (text : String) (runs : Option (List TextRun))
  | quote (text : String) (runs : Option (List TextRun))
  | checklist (items : List ChecklistItem)
  | table (data : List (List String)) (caption : Option String) (headerRow : Option Bool)
  | image (attachmentId : String) (caption : Option String)
  | file (attachmentId : String) (label : Option String)
  | divider
deriving DecidableEq, Repr

/-- `Block` from domain/types.ts: common `BlockBase` fields plus the
variant payload. -/
structure Block where
  id : String
  updatedAt : Option String := none
  updatedBy : Option String := none
  locked : Option Bool := none
  align : Option TextAlign := none
  variant : BlockVariant
deriving DecidableEq, Repr

/-- `Attachment` from domain/types.ts (the fields the export transform
reads). -/
structure Attachment where
  id : String
  entryId : String
  type : String
  filename : String
  filesize : String
  storagePath : String
  cachedPath : Option String := none
deriving DecidableEq, Repr

/-- `Project` from domain/types.ts (the fields `createProject` uses). -/
structure Project where
  id : String
  labId : String
  title : String
  tags : List String := []
deriving DecidableEq, Repr

/-- `SyncStatus` from App.tsx: `'pending' | 'synced' | 'failed'`. -/
inductive SyncStatus where
  | pending | synced | failed
deriving DecidableEq, Repr

/-- `ChangeQueueItem` from App.tsx. -/
structure ChangeQueueItem where
  id : String
  entryId : String
  blocks : List String
  status : SyncStatus
  updatedAt : String
  attempts : Nat
  lastTriedAt : Option String := none
  lastError : Option String := none
deriving DecidableEq, Repr

/-- The sync-relevant component state of App.tsx: the `changeQueue` React
state, the `syncRunningRef` ref and the `syncing` React state. -/
structure SyncState where
  queue : List ChangeQueueItem
  syncRunning : Bool
  syncing : Bool
deriving DecidableEq, Repr

/-- The options record of `syncNow` in App.tsx; both fields are optional
in the TypeScript signature. -/
structure SyncNowOpts where
  entryId : Option String := none
  includeFailed : Option Bool := none
deriving DecidableEq, Repr

/-- `hashString` from App.tsx: 32-bit FNV-1a over the UTF-16 code units of
the input (ids hashed by the app are ASCII, where a Lean `Char` code and a
JS code unit coincide).  `h = Math.imul(h, 16777619)` followed by the final
`h >>> 0` is arithmetic modulo 2^32 on the unsigned representatives. -/
def hashString (input : String) : Nat :=
  input.data.foldl (fun h c => ((h ^^^ c.toNat) * 16777619) % 4294967296) 2166136261

/-- The environment read by `mockSyncApi` in App.tsx: the
`navigator.onLine` signal, the `window.__labnoteMockSync` overrides and the
two localStorage flags (localStorage assumed accessible). -/
structure MockSyncEnv where
  onLine : Bool := true
  overridesNoFail : Bool := false
  overridesFailNext : Bool := false
  lsNoFail : Bool := false
  lsFailNext : Bool := false
deriving DecidableEq, Repr

/-- `mockSyncApi` from App.tsx, with the ~450ms latency elided.  Returns
the thrown error message (if any) and the updated environment (the
forced-failure flags are consumed).  Note that the localStorage `failNext`
branch throws inside the `try { ... } catch { }` block, so its error is
swallowed and control falls through to the deterministic check -- the model
reproduces that. -/
def mockSyncApi (env : MockSyncEnv) (change : ChangeQueueItem) :
    Except String Unit × MockSyncEnv :=
  if env.onLine = false then (.error "Offline", env)
  else if env.overridesNoFail then (.ok (), env)
  else if env.overridesFailNext then
    (.error "Mock API error (forced)", { env with overridesFailNext := false })
  else if env.lsNoFail then (.ok (), env)
  else
    let env' := if env.lsFailNext then { env with lsFailNext := false } else env
    if change.attempts = 0 ∧ hashString change.id % 5 = 0 then
      (.error "Mock API error (500)", env')
    else (.ok (), env')

/-- The first `setChangeQueue` inside the `processSync` loop in App.tsx:
re-affirm pending, bump attempts, stamp `lastTriedAt`, clear `lastError`. -/
def markAttempt (startedAt : String) (c : ChangeQueueItem) : ChangeQueueItem :=
  { c with status := .pending, attempts := c.attempts + 1,
           lastTriedAt := some startedAt, lastError := none }

/-- The success/failure `setChangeQueue` inside the `processSync` loop in
App.tsx. -/
def markOutcome (r : Except String Unit) (c : ChangeQueueItem) : ChangeQueueItem :=
  match r with
  | .ok _ => { c with status := .synced, lastError := none }
  | .error message => { c with status := .failed, lastError := some message }

/-- One iteration of the `for (const change of changes)` loop in
`processSync`: both queue updates key on `change.id`, and the remote is
called on the `change` snapshot captured at selection time. -/
def processOne (remote : ChangeQueueItem → Except String Unit) (startedAt : String)
    (q : List ChangeQueueItem) (change : ChangeQueueItem) : List ChangeQueueItem :=
  let afterAttempt := q.map fun c => if c.id = change.id then markAttempt startedAt c else c
  afterAttempt.map fun c => if c.id = change.id then markOutcome (remote change) c else c

/-- `processSync` from App.tsx: no-op when `syncRunningRef.current` is set
or the batch is empty; otherwise process the batch strictly sequentially
and clear the in-flight flag and `syncing` in the `finally` block.  The
remote is modelled as a function of the change (deterministic for a fixed
environment, as `mockSyncApi` is). -/
def processSync (remote : ChangeQueueItem → Except String Unit) (startedAt : String)
    (s : SyncState) (changes : List ChangeQueueItem) : SyncState :=
  if s.syncRunning then s
  else if changes.isEmpty then s
  else { s with queue := changes.foldl (processOne remote startedAt) s.queue,
                syncRunning := false, syncing := false }

/-- The candidate filter inside `syncNow` in App.tsx.  `opts?.entryId &&`
is a JS truthiness test, so an empty-string `entryId` disables the filter;
`opts?.includeFailed ?? true` defaults the flag to `true`. -/
def candidateFilter (opts : SyncNowOpts) (c : ChangeQueueItem) : Bool :=
  let includeFailed := opts.includeFailed.getD true
  let entryMismatch : Bool :=
    match opts.entryId with
    | some eid => eid != "" && c.entryId != eid
    | none => false
  if entryMismatch then false
  else if c.status = .pending then true
  else if includeFailed && c.status == .failed then true
  else false

/-- The candidate selection of `syncNow`: `changeQueue.filter (...)`. -/
def selectCandidates (opts : SyncNowOpts) (q : List ChangeQueueItem) :
    List ChangeQueueItem :=
  q.filter (candidateFilter opts)

/-- `syncNow` from App.tsx: select candidates from the current queue and
hand them to `processSync`. -/
def syncNow (remote : ChangeQueueItem → Except String Unit) (startedAt : String)
    (s : SyncState) (opts : SyncNowOpts) : SyncState :=
  processSync remote startedAt s (selectCandidates opts s.queue)

/-- The auto-drain `useEffect` in App.tsx, at the moment its debounced
(900ms) timer fires: guarded by `syncing` and by the presence of at least
one pending item, it calls `syncNow({ includeFailed: false })`. -/
def autoDrainTick (remote : ChangeQueueItem → Except String Unit) (startedAt : String)
    (s : SyncState) : SyncState :=
  if s.syncing then s
  else if ¬ s.queue.any (fun c => c.status = .pending) then s
  else syncNow remote startedAt s { entryId := none, includeFailed := some false }

/-- The `onEnqueueChange` handler in App.tsx: prepend a fresh record with
`status: 'pending'`, `attempts: 0` to the queue.  The random uuid suffix of
the generated id is passed in as `salt`. -/
def onEnqueueChange (salt : String) (entryId : String) (blockIds : List String)
    (ts : String) (q : List ChangeQueueItem) : List ChangeQueueItem :=
  { id := "chg-" ++ ts ++ "-" ++ salt, entryId := entryId, blocks := blockIds,
    status := .pending, updatedAt := ts, attempts := 0,
    lastTriedAt := none, lastError := none } :: q

/-- JS whitespace test used to model `String.prototype.trim` and the
regexp `\s` (the app only ever feeds it ASCII space/tab/newline). -/
def wsChar (c : Char) : Bool := c.isWhitespace

/-- The char-list form of `String.prototype.trim`: drop leading and
trailing whitespace. -/
def jsTrimList (l : List Char) : List Char :=
  ((l.dropWhile wsChar).reverse.dropWhile wsChar).reverse

/-- `String.prototype.trim` as used throughout App.tsx. -/
def jsTrim (s : String) : String := ⟨jsTrimList s.data⟩

/-- The char-list form of `.replace(/\s+/g, ' ')`: each maximal whitespace
run collapses to a single space.  `prevWs` records whether the previous
character was part of a whitespace run. -/
def collapseWsGo : List Char → Bool → List Char
  | [], _ => []
  | c :: rest, prevWs =>
    if wsChar c then
      if prevWs then collapseWsGo rest true
      else ' ' :: collapseWsGo rest true
    else c :: collapseWsGo rest false

/-- `.replace(/\s+/g, ' ')` from `createProject` / `createExperiment`. -/
def collapseWs (s : String) : String := ⟨collapseWsGo s.data false⟩

/-- Per-character form of `escapeMd`'s four chained `.replace` calls: each
of backslash, backtick (code 96), asterisk and underscore gains a leading
backslash; the chained replaces compose to exactly this map. -/
def escapeMdChar (c : Char) : List Char :=
  if c = '\\' ∨ c.toNat = 96 ∨ c = '*' ∨ c = '_' then ['\\', c] else [c]

/-- `escapeMd` from App.tsx. -/
def escapeMd (text : String) : String :=
  ⟨text.data.foldr (fun c acc => escapeMdChar c ++ acc) []⟩

/-- `Array.prototype.join(sep)`. -/
def joinSep (sep : String) : List String → String
  | [] => ""
  | [p] => p
  | p :: rest => p ++ sep ++ joinSep sep rest

/-- Lookup in a JS record (`record[key]` yielding `undefined` when the key
is absent), modelled over an association list. -/
def recordGet (m : List (String × α)) (k : String) : Option α :=
  (m.find? (fun e => e.fst == k)).map (·.snd)

/-- The `mdTable` helper inside `blocksToMarkdown`: GFM pipe table with a
`---` separator row; when `headerRow` is false, synthesize `Col n` labels. -/
def mdTable (data : List (List String)) (headerRow : Bool) : String :=
  match data with
  | [] => ""
  | r0 :: rest =>
    let header := if headerRow then r0
      else (List.range r0.length).map (fun idx => "Col " ++ toString (idx + 1))
    let body := if headerRow then rest else r0 :: rest
    let headerLine := "| " ++ joinSep " | " (header.map escapeMd) ++ " |"
    let sepLine := "| " ++ joinSep " | " (header.map (fun _ => "---")) ++ " |"
    let bodyLines := body.map (fun row => "| " ++ joinSep " | " (row.map escapeMd) ++ " |")
    joinSep "\n" (headerLine :: sepLine :: bodyLines)

/-- The strings pushed onto `parts` for one block inside `blocksToMarkdown`
(the trailing empty-string separator push is added by the caller).  Note
the JS truthiness tests: `if (block.caption)` skips an empty caption and
`if (path)` treats an empty path as missing; `??` chains preserve empty
strings. -/
def blockMdParts (attachmentsById : List (String × Attachment))
    (attachmentExportPathById : List (String × String)) (block : Block) :
    List String :=
  match block.variant with
  | .heading text level _ =>
    let lvl := level.getD 2
    [String.mk (List.replicate (max 1 (min 6 lvl)) '#') ++ " " ++ escapeMd text]
  | .paragraph text _ => [text]
  | .quote text _ =>
    [joinSep "\n" ((text.splitOn "\n").map (fun l => "> " ++ l))]
  | .divider => ["---"]
  | .checklist items =>
    [joinSep "\n" (items.map (fun i =>
      "- [" ++ (if i.done then "x" else " ") ++ "] " ++ escapeMd i.text))]
  | .table data caption headerRow =>
    let tbl := mdTable data (!(headerRow == some false))
    let capParts := match caption with
      | some cap => if cap != "" then ["*" ++ escapeMd cap ++ "*"] else []
      | none => []
    tbl :: capParts
  | .image attachmentId caption =>
    let att := recordGet attachmentsById attachmentId
    let label := caption.getD ((att.map (·.filename)).getD "image")
    let path := (recordGet attachmentExportPathById attachmentId).orElse
      (fun _ => att.map (·.storagePath))
    match path with
    | some p =>
      if p != "" then ["![" ++ escapeMd label ++ "](" ++ p ++ ")"]
      else ["![" ++ escapeMd label ++ "](missing)"]
    | none => ["![" ++ escapeMd label ++ "](missing)"]
  | .file attachmentId lbl =>
    let att := recordGet attachmentsById attachmentId
    let label := lbl.getD ((att.map (·.filename)).getD "file")
    let path := (recordGet attachmentExportPathById attachmentId).orElse
      (fun _ => att.map (·.storagePath))
    match path with
    | some p =>
      if p != "" then ["[" ++ escapeMd label ++ "](" ++ p ++ ")"]
      else [escapeMd label ++ " (missing)"]
    | none => [escapeMd label ++ " (missing)"]

/-- `blocksToMarkdown` from App.tsx: per-block parts each followed by an
empty separator part, joined by newlines, trimmed, with a final newline. -/
def blocksToMarkdown (blocks : List Block) (attachmentsById : List (String × Attachment))
    (attachmentExportPathById : List (String × String)) : String :=
  let parts := blocks.flatMap
    (fun b => blockMdParts attachmentsById attachmentExportPathById b ++ [""])
  jsTrim (joinSep "\n" parts) ++ "\n"

/-- `sampleData.labs[0].id` from data/sampleData.ts, read by
`createProject`. -/
def sampleDataFirstLabId : String := "lab-main"

/-- `createProject` from App.tsx.  The generated uuid is passed in as
`salt` (the source id is `newId('proj-')`).  Throwing is modelled as
`Except.error`; the result carries the returned id and the updated
`projects` collection. -/
def createProject (salt : String) (projects : List Project) (title : String) :
    Except String (String × List Project) :=
  let cleaned := collapseWs (jsTrim title)
  if cleaned = "" then .error "Project name is required."
  else
    match projects.find? (fun p => (jsTrim p.title).toLower == cleaned.toLower) with
    | some existing => .ok (existing.id, projects)
    | none =>
      let project : Project :=
        { id := "proj-" ++ salt, labId := sampleDataFirstLabId, title := cleaned, tags := [] }
      .ok (project.id, projects ++ [project])

/-- The Slate `Descendant` tree as the app uses it: text leaves carry the
three mark flags (set only to `true` or left `undefined` by this app), and
elements carry the custom fields App.tsx attaches (`blockId`, `itemId`,
`locked`, `done`, `align`, `meta`) plus children.  Absent JS fields are
`none`/`false`. -/
inductive SlateNode where
  | leaf (text : String) (bold italic underline : Option Bool)
  | element (ty : String) (blockId itemId : Option String) (locked done : Bool)
      (align : Option TextAlign) (meta : Option Block) (children : List SlateNode)
deriving Repr

mutual

/-- Slate's `Node.string`: the concatenation of all text leaves below the
node (an external library function the app calls). -/
def SlateNode.string : SlateNode → String
  | .leaf t _ _ _ => t
  | .element _ _ _ _ _ _ _ children => SlateNode.stringList children

/-- `Node.string` lifted over a child list, in order. -/
def SlateNode.stringList : List SlateNode → String
  | [] => ""
  | n :: rest => SlateNode.string n ++ SlateNode.stringList rest

end

/-- Slate's `Element.isElement` as it applies to our node model. -/
def SlateNode.isElement : SlateNode → Bool
  | .leaf .. => false
  | .element .. => true

/-- The `=== true ? true : undefined` normalization applied to mark fields
in both conversion directions in App.tsx. -/
def normalizeMark (b : Option Bool) : Option Bool :=
  if b == some true then some true else none

/-- The `sameMarks` comparison inside `mergeRuns`:
`(prev.bold ?? false) === (run.bold ?? false)` for each of the three marks. -/
def sameMarks (a b : TextRun) : Bool :=
  a.bold.getD false == b.bold.getD false &&
  a.italic.getD false == b.italic.getD false &&
  a.underline.getD false == b.underline.getD false

/-- `mergeRuns` from App.tsx: fold left over the runs, appending each run's
text onto the last output run when the three normalized marks agree,
otherwise pushing a copy.  The accumulator is kept reversed (most recent
first) so the imperative `out[out.length - 1]` access is the head. -/
def mergeRuns (runs : List TextRun) : List TextRun :=
  (runs.foldl (fun out run =>
    match out with
    | prev :: rest =>
      if sameMarks prev run then { prev with text := prev.text ++ run.text } :: rest
      else run :: prev :: rest
    | [] => [run]) []).reverse

/-- `runsFromSlateChildren` from App.tsx: read each text child as a run
(marks normalized through `=== true`), read a non-text child as an
unformatted run holding `Node.string(child)`, merge, and return `undefined`
unless some formatting exists or there is more than one merged run. -/
def runsFromSlateChildren (children : List SlateNode) : Option (List TextRun) :=
  let raw := children.map fun child =>
    match child with
    | .leaf t b i u =>
      { text := t, bold := normalizeMark b, italic := normalizeMark i,
        underline := normalizeMark u : TextRun }
    | e => { text := SlateNode.string e : TextRun }
  let merged := mergeRuns raw
  let hasFormatting := merged.any
      (fun r => r.bold == some true || r.italic == some true || r.underline == some true)
    || merged.length > 1
  if hasFormatting then some merged else none

/-- `slateTextChildrenFromRuns` from App.tsx: emit one leaf per run when a
non-empty run list is present (`if (runs && runs.length)`), otherwise a
single unformatted leaf holding the fallback text. -/
def slateTextChildrenFromRuns (runs : Option (List TextRun)) (fallbackText : String) :
    List SlateNode :=
  match runs with
  | some rs =>
    if rs.length != 0 then
      rs.map fun r =>
        .leaf r.text (normalizeMark r.bold) (normalizeMark r.italic)
          (normalizeMark r.underline)
    else [.leaf fallbackText none none none]
  | none => [.leaf fallbackText none none none]

/-- The per-block body of `blocksToSlate` from App.tsx (the `toEditableTree`
conversion).  Fields the source does not set on a node are `none`/`false`
here.  The `default` branch of the source switch is unreachable for the
closed `Block` union. -/
def blockToSlate (block : Block) : SlateNode :=
  match block.variant with
    | .heading text level runs =>
      .element (if level == some 3 then "heading-three" else "heading-two")
        (some block.id) none (block.locked == some true) false block.align none
        (slateTextChildrenFromRuns runs text)
    | .paragraph text runs =>
      .element "paragraph" (some block.id) none false false block.align none
        (slateTextChildrenFromRuns runs text)
    | .quote text runs =>
      .element "quote" (some block.id) none false false block.align none
        (slateTextChildrenFromRuns runs text)
    | .checklist items =>
      .element "checklist" (some block.id) none false false none none
        (items.map fun item =>
          .element "check-item" none (some item.id) false item.done none none
            (slateTextChildrenFromRuns item.runs item.text))
    | .divider =>
      .element "divider" (some block.id) none false false none (some block)
        [.leaf "" none none none]
    | .table data caption headerRow =>
      .element "table" (some block.id) none false false none
        (some { block with variant := .table data caption (some (!(headerRow == some false))) })
        [.leaf "" none none none]
    | .image _ _ =>
      .element "attachment" (some block.id) none false false none (some block)
        [.leaf "" none none none]
    | .file _ _ =>
      .element "attachment" (some block.id) none false false none (some block)
        [.leaf "" none none none]

/-- `blocksToSlate` from App.tsx: map `blockToSlate` over the block list. -/
def blocksToSlate (blocks : List Block) : List SlateNode :=
  blocks.map blockToSlate

/-- The per-node body of `slateToBlocks` from App.tsx (the
`fromEditableTree` conversion).  The id-generation contract
(`crypto.randomUUID` / `newId('ci-')`) is passed in as `fresh`; the
round-trip claims never exercise those fallbacks.  The checklist case
filters the children to elements and maps them to items -- rendered here as
a `filterMap`.  In the `table` case the source rebinds `meta` to the
table-typed meta before reading `meta?.id`, `meta?.data` and
`meta?.headerRow`. -/
def slateNodeToBlock (fresh : String) (node : SlateNode) : Block :=
  match node with
    | .leaf .. => { id := fresh, variant := .paragraph "" none }
    | .element ty blockId _ locked _ align meta children =>
      match ty with
      | "heading-two" =>
        { id := blockId.getD fresh, locked := some locked, align := align,
          variant := .heading (SlateNode.stringList children) (some 2)
            (runsFromSlateChildren children) }
      | "heading-three" =>
        { id := blockId.getD fresh, locked := some locked, align := align,
          variant := .heading (SlateNode.stringList children) (some 3)
            (runsFromSlateChildren children) }
      | "quote" =>
        { id := blockId.getD fresh, align := align,
          variant := .quote (SlateNode.stringList children)
            (runsFromSlateChildren children) }
      | "checklist" =>
        { id := blockId.getD fresh, align := align,
          variant := .checklist (children.filterMap fun child =>
            match child with
            | .element _ _ cItemId _ cDone _ _ cChildren =>
              some { id := cItemId.getD ("ci-" ++ fresh),
                     text := SlateNode.stringList cChildren, done := cDone,
                     timerMinutes := none, runs := runsFromSlateChildren cChildren }
            | .leaf .. => none) }
      | "divider" | "attachment" | "readonly" =>
        match meta with
        | some b => b
        | none => { id := blockId.getD fresh, variant := .divider }
      | "table" =>
        let metaT : Option Block := match meta with
          | some b => match b.variant with | .table .. => some b | _ => none
          | none => none
        let data := match metaT with
          | some b => match b.variant with | .table d _ _ => d | _ => []
          | none => []
        let hr : Option Bool := match metaT with
          | some b => match b.variant with | .table _ _ h => h | _ => none
          | none => none
        { id := (blockId.orElse (fun _ => metaT.map (·.id))).getD fresh,
          variant := .table data none (some (!(hr == some false))) }
      | _ =>
        { id := blockId.getD fresh, align := align,
          variant := .paragraph (SlateNode.stringList children)
            (runsFromSlateChildren children) }

/-- `slateToBlocks` from App.tsx: map `slateNodeToBlock` over the nodes. -/
def slateToBlocks (fresh : String) (nodes : List SlateNode) : List Block :=
  nodes.map (slateNodeToBlock fresh)

/-- The net effect of one loop iteration of `processSync` on a single
queue element: both `setChangeQueue` maps key on `change.id`, and
`markAttempt` preserves ids, so an element is either updated through both
maps or untouched. -/
def stepItem (remote : ChangeQueueItem → Except String Unit) (startedAt : String)
    (ch c : ChangeQueueItem) : ChangeQueueItem :=
  if c.id = ch.id then markOutcome (remote ch) (markAttempt startedAt c) else c

/-- The per-element effect of a whole batch, folding `stepItem` over the
selected changes in order. -/
def runStep (remote : ChangeQueueItem → Except String Unit) (startedAt : String)
    (changes : List ChangeQueueItem) (c : ChangeQueueItem) : ChangeQueueItem :=
  changes.foldl (fun x ch => stepItem remote startedAt ch x) c

theorem markAttempt_id (t : String) (c : ChangeQueueItem) :
    (markAttempt t c).id = c.id := rfl

theorem markOutcome_id (r : Except String Unit) (c : ChangeQueueItem) :
    (markOutcome r c).id = c.id := by
  cases r <;> rfl

theorem markOutcome_markAttempt_attempts (r : Except String Unit) (t : String)
    (c : ChangeQueueItem) :
    (markOutcome r (markAttempt t c)).attempts = c.attempts + 1 := by
  cases r <;> rfl

theorem markOutcome_status (r : Except String Unit) (c : ChangeQueueItem) :
    (markOutcome r c).status = .synced ∨ (markOutcome r c).status = .failed := by
  cases r with
  | ok _ => exact Or.inl rfl
  | error _ => exact Or.inr rfl

theorem stepItem_id (remote : ChangeQueueItem → Except String Unit) (t : String)
    (ch c : ChangeQueueItem) : (stepItem remote t ch c).id = c.id := by
  unfold stepItem
  split
  · rw [markOutcome_id, markAttempt_id]
  · rfl

theorem processOne_eq_map (remote : ChangeQueueItem → Except String Unit) (t : String)
    (q : List ChangeQueueItem) (ch : ChangeQueueItem) :
    processOne remote t q ch = q.map (stepItem remote t ch) := by
  unfold processOne stepItem
  rw [List.map_map]
  refine List.map_congr_left ?_
  intro c _
  by_cases h : c.id = ch.id
  · simp [Function.comp, h, markAttempt_id]
  · simp [Function.comp, h]

theorem foldl_processOne_eq_map (remote : ChangeQueueItem → Except String Unit)
    (t : String) (changes : List ChangeQueueItem) :
    ∀ q : List ChangeQueueItem,
      changes.foldl (processOne remote t) q = q.map (runStep remote t changes) := by
  induction changes with
  | nil =>
    intro q
    have h1 : q.map (runStep remote t []) = q.map id :=
      List.map_congr_left (fun c _ => rfl)
    rw [h1, List.map_id, List.foldl_nil]
  | cons ch rest ih =>
    intro q
    rw [List.foldl_cons, processOne_eq_map, ih, List.map_map]
    rfl

theorem runStep_id (remote : ChangeQueueItem → Except String Unit) (t : String)
    (changes : List ChangeQueueItem) (c : ChangeQueueItem) :
    (runStep remote t changes c).id = c.id := by
  induction changes generalizing c with
  | nil => rfl
  | cons ch rest ih =>
    have h1 : runStep remote t (ch :: rest) c =
        runStep remote t rest (stepItem remote t ch c) := rfl
    rw [h1, ih]
    exact stepItem_id remote t ch c

theorem runStep_not_mem (remote : ChangeQueueItem → Except String Unit) (t : String)
    (changes : List ChangeQueueItem) (c : ChangeQueueItem)
    (h : c.id ∉ changes.map (fun x => x.id)) : runStep remote t changes c = c := by
  induction changes with
  | nil => rfl
  | cons ch rest ih =>
    simp only [List.map_cons, List.mem_cons] at h
    push_neg at h
    have hstep : stepItem remote t ch c = c := by
      unfold stepItem
      rw [if_neg h.1]
    have h2 : runStep remote t (ch :: rest) c =
        runStep remote t rest (stepItem remote t ch c) := rfl
    rw [h2, hstep]
    exact ih h.2

theorem runStep_attempts_le (remote : ChangeQueueItem → Except String Unit) (t : String)
    (changes : List ChangeQueueItem) :
    ∀ c : ChangeQueueItem, (runStep remote t changes c).attempts ≤
      c.attempts + (changes.map (fun x => x.id)).count c.id := by
  induction changes with
  | nil => intro c; simp [runStep]
  | cons ch rest ih =>
    intro c
    have h2 : runStep remote t (ch :: rest) c =
        runStep remote t rest (stepItem remote t ch c) := rfl
    rw [h2]
    by_cases hid : c.id = ch.id
    · have hstep : stepItem remote t ch c = markOutcome (remote ch) (markAttempt t c) := by
        unfold stepItem
        rw [if_pos hid]
      have h4 := ih (stepItem remote t ch c)
      rw [stepItem_id] at h4
      rw [hstep, markOutcome_markAttempt_attempts] at h4
      have hcnt : ((ch :: rest).map (fun x => x.id)).count c.id =
          (rest.map (fun x => x.id)).count c.id + 1 := by
        simp [List.count_cons, hid]
      rw [hstep]
      omega
    · have hstep : stepItem remote t ch c = c := by
        unfold stepItem
        rw [if_neg hid]
      have h4 := ih c
      have hcnt : ((ch :: rest).map (fun x => x.id)).count c.id =
          (rest.map (fun x => x.id)).count c.id := by
        have hid2 : ¬ (ch.id = c.id) := fun hh => hid hh.symm
        simp [List.count_cons, hid2]
      rw [hstep]
      omega

theorem runStep_touch (remote : ChangeQueueItem → Except String Unit) (t : String)
    (changes : List ChangeQueueItem) :
    ∀ c : ChangeQueueItem, (changes.map (fun x => x.id)).count c.id = 1 →
      ∃ ch, ch ∈ changes ∧ ch.id = c.id ∧
        runStep remote t changes c = markOutcome (remote ch) (markAttempt t c) := by
  induction changes with
  | nil => intro c h; simp at h
  | cons ch0 rest ih =>
    intro c h
    have h2 : runStep remote t (ch0 :: rest) c =
        runStep remote t rest (stepItem remote t ch0 c) := rfl
    by_cases hid : c.id = ch0.id
    · have hcnt : ((ch0 :: rest).map (fun x => x.id)).count c.id =
          (rest.map (fun x => x.id)).count c.id + 1 := by
        simp [List.count_cons, hid]
      have hzero : (rest.map (fun x => x.id)).count c.id = 0 := by omega
      have hnotmem : c.id ∉ rest.map (fun x => x.id) := by
        intro hmem
        have := List.count_pos_iff.mpr hmem
        omega
      have hstep : stepItem remote t ch0 c = markOutcome (remote ch0) (markAttempt t c) := by
        unfold stepItem
        rw [if_pos hid]
      refine ⟨ch0, List.mem_cons_self ch0 rest, hid.symm, ?_⟩
      rw [h2, hstep]
      apply runStep_not_mem
      rw [markOutcome_id, markAttempt_id]
      exact hnotmem
    · have hstep : stepItem remote t ch0 c = c := by
        unfold stepItem
        rw [if_neg hid]
      have hcnt : ((ch0 :: rest).map (fun x => x.id)).count c.id =
          (rest.map (fun x => x.id)).count c.id := by
        have hid2 : ¬ (ch0.id = c.id) := fun hh => hid hh.symm
        simp [List.count_cons, hid2]
      obtain ⟨ch, hmem, hcid, heq⟩ := ih c (by omega)
      exact ⟨ch, List.mem_cons_of_mem ch0 hmem, hcid, by rw [h2, hstep, heq]⟩

theorem candidateFilter_synced (opts : SyncNowOpts) (c : ChangeQueueItem)
    (h : c.status = .synced) : candidateFilter opts c = false := by
  unfold candidateFilter
  rw [h]
  simp

theorem mem_syncNow_of_not_candidate (remote : ChangeQueueItem → Except String Unit)
    (t : String) (s : SyncState) (opts : SyncNowOpts) (c : ChangeQueueItem)
    (hq : (s.queue.map (fun x => x.id)).Nodup) (hc : c ∈ s.queue)
    (hfilter : candidateFilter opts c = false) :
    c ∈ (syncNow remote t s opts).queue := by
  unfold syncNow processSync
  by_cases hrun : s.syncRunning
  · simp only [hrun, if_true]
    exact hc
  · by_cases hemp : (selectCandidates opts s.queue).isEmpty
    · simp only [hrun, hemp, if_false, if_true]
      exact hc
    · simp only [hrun, hemp, if_false]
      rw [foldl_processOne_eq_map]
      have hnot : c.id ∉ (selectCandidates opts s.queue).map (fun x => x.id) := by
        intro hmem
        obtain ⟨d, hd, hdid⟩ := List.mem_map.mp hmem
        have hdq : d ∈ s.queue := List.mem_of_mem_filter hd
        have hdc : d = c := List.inj_on_of_nodup_map hq hdq hc hdid
        subst hdc
        have := List.of_mem_filter hd
        rw [hfilter] at this
        exact absurd this (by decide)
      have hfix := runStep_not_mem remote t _ c hnot
      exact hfix ▸ List.mem_map_of_mem (runStep remote t (selectCandidates opts s.queue)) hc

/-- C1: Partial failure isolation.  During one sync run over a selected
3-item pending batch where the remote call throws for the second item and
succeeds for the first and third, a thrown error does not abort the run:
afterwards item 1 is synced, item 2 is failed with `lastError` set to the
thrown message, and item 3 is synced. -/
theorem partial_failure_isolation (remote : ChangeQueueItem → Except String Unit)
    (t : String) (a b c : ChangeQueueItem) (msg : String)
    (hab : a.id ≠ b.id) (hac : a.id ≠ c.id) (hbc : b.id ≠ c.id)
    (hpa : a.status = .pending) (hpb : b.status = .pending) (hpc : c.status = .pending)
    (ra : remote a = .ok ()) (rb : remote b = .error msg) (rc : remote c = .ok ()) :
    (processSync remote t ⟨[a, b, c], false, false⟩ [a, b, c]).queue.map
        (fun x => (x.status, x.lastError)) =
      [(.synced, none), (.failed, some msg), (.synced, none)] := by
  have h1 : processSync remote t ⟨[a, b, c], false, false⟩ [a, b, c] =
      { queue := [a, b, c].foldl (processOne remote t) [a, b, c],
        syncRunning := false, syncing := false } := rfl
  rw [h1, foldl_processOne_eq_map]
  simp only [List.map_cons, List.map_nil]
  have hruna : runStep remote t [a, b, c] a =
      markOutcome (remote a) (markAttempt t a) := by
    simp [runStep, stepItem, markOutcome_id, markAttempt_id, hab, hac]
  have hrunb : runStep remote t [a, b, c] b =
      markOutcome (remote b) (markAttempt t b) := by
    simp [runStep, stepItem, markOutcome_id, markAttempt_id, Ne.symm hab, hbc]
  have hrunc : runStep remote t [a, b, c] c =
      markOutcome (remote c) (markAttempt t c) := by
    simp [runStep, stepItem, markOutcome_id, markAttempt_id, Ne.symm hac, Ne.symm hbc]
  rw [hruna, hrunb, hrunc, ra, rb, rc]
  rfl

/-- C1 witness: a concrete 3-item pending batch whose middle item's remote
call throws. -/
theorem partial_failure_isolation_witness :
    (processSync
        (fun ch => if ch.id = "chg-b" then .error "boom" else .ok ()) "t1"
        ⟨[⟨"chg-a", "e1", [], .pending, "u1", 0, none, none⟩,
          ⟨"chg-b", "e1", [], .pending, "u2", 0, none, none⟩,
          ⟨"chg-c", "e1", [], .pending, "u3", 0, none, none⟩], false, false⟩
        [⟨"chg-a", "e1", [], .pending, "u1", 0, none, none⟩,
         ⟨"chg-b", "e1", [], .pending, "u2", 0, none, none⟩,
         ⟨"chg-c", "e1", [], .pending, "u3", 0, none, none⟩]).queue.map
        (fun x => (x.status, x.lastError)) =
      [(.synced, none), (.failed, some "boom"), (.synced, none)] :=
  partial_failure_isolation _ "t1" _ _ _ "boom"
    (by decide) (by decide) (by decide) rfl rfl rfl rfl rfl rfl

/-- Case analysis on the queue after a `syncNow` call: either one of the
no-op guards fired and the queue is unchanged, or every element went
through `runStep` over the selected candidates. -/
theorem syncNow_queue_cases (remote : ChangeQueueItem → Except String Unit)
    (t : String) (s : SyncState) (opts : SyncNowOpts) :
    (syncNow remote t s opts).queue = s.queue ∨
    (syncNow remote t s opts).queue =
      s.queue.map (runStep remote t (selectCandidates opts s.queue)) := by
  unfold syncNow processSync
  by_cases hrun : s.syncRunning
  · left
    rw [if_pos hrun]
  · by_cases hemp : (selectCandidates opts s.queue).isEmpty
    · left
      rw [if_neg hrun, if_pos hemp]
    · right
      rw [if_neg hrun, if_neg hemp]
      exact foldl_processOne_eq_map remote t _ s.queue

/-- C2: Single in-flight run.  If a run is already in flight
(`syncRunningRef.current` is set), `syncNow` is a no-op; and one run over a
queue with pairwise-distinct ids increments each item's `attempts` at most
once (no double-increment), preserving the queue's length. -/
theorem single_inflight_run (remote : ChangeQueueItem → Except String Unit)
    (t : String) (s : SyncState) (opts : SyncNowOpts) :
    (s.syncRunning = true → syncNow remote t s opts = s) ∧
    ((s.queue.map (fun x => x.id)).Nodup →
      (syncNow remote t s opts).queue.length = s.queue.length ∧
      ∀ c ∈ s.queue, ∃ c' ∈ (syncNow remote t s opts).queue,
        c'.id = c.id ∧ c'.attempts ≤ c.attempts + 1) := by
  constructor
  · intro h
    unfold syncNow processSync
    simp [h]
  · intro hq
    rcases syncNow_queue_cases remote t s opts with hcase | hcase
    · rw [hcase]
      exact ⟨rfl, fun c hc => ⟨c, hc, rfl, Nat.le_succ _⟩⟩
    · rw [hcase]
      refine ⟨List.length_map _ _, ?_⟩
      intro c hc
      refine ⟨runStep remote t (selectCandidates opts s.queue) c,
        List.mem_map_of_mem _ hc, runStep_id remote t _ c, ?_⟩
      have hle := runStep_attempts_le remote t (selectCandidates opts s.queue) c
      have hsub : List.Sublist
          ((selectCandidates opts s.queue).map (fun x => x.id))
          (s.queue.map (fun x => x.id)) :=
        (List.filter_sublist s.queue).map (fun x => x.id)
      have hcle := hsub.count_le c.id
      have hone := List.nodup_iff_count_le_one.mp hq c.id
      omega

/-- C2 witness: a concrete queue in the in-flight state is left unchanged
by a second `syncNow` call, and one run over a distinct-id queue bumps each
`attempts` by at most one. -/
theorem single_inflight_run_witness :
    (syncNow (fun _ => .ok ()) "t1"
        ⟨[⟨"chg-a", "e1", [], .pending, "u1", 0, none, none⟩], true, true⟩
        ⟨none, none⟩ =
      ⟨[⟨"chg-a", "e1", [], .pending, "u1", 0, none, none⟩], true, true⟩) ∧
    (syncNow (fun _ => .ok ()) "t1"
        ⟨[⟨"chg-a", "e1", [], .pending, "u1", 0, none, none⟩], false, false⟩
        ⟨none, none⟩).queue.length = 1 :=
  ⟨(single_inflight_run _ "t1" _ _).1 rfl,
   ((single_inflight_run (fun _ => .ok ()) "t1"
      ⟨[⟨"chg-a", "e1", [], .pending, "u1", 0, none, none⟩], false, false⟩
      ⟨none, none⟩).2 (by decide)).1⟩

/-- C4: Enqueue contract.  `onEnqueueChange` adds exactly one record at the
front of the queue with `status = pending`, `attempts = 0`, the given
blocks and timestamp, leaves every pre-existing record unchanged (the tail
is the old queue), and n enqueues produce n independent records. -/
theorem enqueue_contract (salt entryId ts : String) (blockIds : List String)
    (q : List ChangeQueueItem) :
    (onEnqueueChange salt entryId blockIds ts q).length = q.length + 1 ∧
    (∃ r, (onEnqueueChange salt entryId blockIds ts q).head? = some r ∧
      r.status = .pending ∧ r.attempts = 0 ∧ r.blocks = blockIds ∧
      r.updatedAt = ts ∧ r.entryId = entryId ∧ r.lastTriedAt = none ∧
      r.lastError = none) ∧
    (onEnqueueChange salt entryId blockIds ts q).tail = q ∧
    ∀ salts : List String,
      (salts.foldl (fun acc s2 => onEnqueueChange s2 entryId blockIds ts acc) q).length =
        q.length + salts.length := by
  refine ⟨rfl, ⟨_, rfl, rfl, rfl, rfl, rfl, rfl, rfl, rfl⟩, rfl, ?_⟩
  intro salts
  induction salts generalizing q with
  | nil => rfl
  | cons s2 rest ih =>
    rw [List.foldl_cons]
    have := ih (onEnqueueChange s2 entryId blockIds ts q)
    rw [this]
    simp [onEnqueueChange]
    omega

/-- C6: Deterministic scripted failure of the remote simulator.  With no
other failure trigger active (online, no forced-failure flags: the default
environment), an item whose id hashes to 0 mod 5 throws exactly when
`attempts = 0` at call time, and succeeds once `attempts ≥ 1`. -/
theorem deterministic_scripted_failure (c : ChangeQueueItem)
    (h5 : hashString c.id % 5 = 0) :
    (c.attempts = 0 → (mockSyncApi {} c).fst = .error "Mock API error (500)") ∧
    (1 ≤ c.attempts → (mockSyncApi {} c).fst = .ok ()) := by
  constructor
  · intro h0
    unfold mockSyncApi
    simp [h0, h5]
  · intro h1
    unfold mockSyncApi
    have hnot : ¬ (c.attempts = 0 ∧ hashString c.id % 5 = 0) := by
      rintro ⟨ha, _⟩
      omega
    simp [hnot]

/-- C6 witness: the id `"a"` hashes to 0 mod 5; a fresh item with that id
fails, and the same item with one prior attempt succeeds. -/
theorem deterministic_scripted_failure_witness :
    ((mockSyncApi {} ⟨"a", "e1", [], .pending, "u1", 0, none, none⟩).fst =
      .error "Mock API error (500)") ∧
    ((mockSyncApi {} ⟨"a", "e1", [], .pending, "u1", 1, none, none⟩).fst = .ok ()) :=
  ⟨(deterministic_scripted_failure _ (by decide)).1 rfl,
   (deterministic_scripted_failure ⟨"a", "e1", [], .pending, "u1", 1, none, none⟩
      (by decide)).2 (by decide)⟩

/-- C3: Synced is terminal.  Over a queue with pairwise-distinct ids, a
record whose status is `synced` is never selected as a sync candidate (for
any `entryId`/`includeFailed` options), and it survives unchanged -- same
record, same status -- through any `syncNow` call, through the auto-drain
trigger, and through any enqueue; only removal could take it out of the
queue. -/
theorem synced_is_terminal (remote : ChangeQueueItem → Except String Unit)
    (t : String) (s : SyncState) (hq : (s.queue.map (fun x => x.id)).Nodup)
    (c : ChangeQueueItem) (hc : c ∈ s.queue) (hs : c.status = .synced) :
    (∀ opts : SyncNowOpts, c ∉ selectCandidates opts s.queue ∧
      c ∈ (syncNow remote t s opts).queue) ∧
    c ∈ (autoDrainTick remote t s).queue ∧
    (∀ salt entryId ts : String, ∀ blockIds : List String,
      c ∈ onEnqueueChange salt entryId blockIds ts s.queue) := by
  have hmain : ∀ opts : SyncNowOpts, c ∉ selectCandidates opts s.queue ∧
      c ∈ (syncNow remote t s opts).queue := by
    intro opts
    constructor
    · intro hmem
      have := List.of_mem_filter hmem
      rw [candidateFilter_synced opts c hs] at this
      exact absurd this (by decide)
    · exact mem_syncNow_of_not_candidate remote t s opts c hq hc
        (candidateFilter_synced opts c hs)
  refine ⟨hmain, ?_, ?_⟩
  · unfold autoDrainTick
    by_cases h1 : s.syncing
    · rw [if_pos h1]
      exact hc
    · rw [if_neg h1]
      by_cases h2 : ¬ s.queue.any (fun c => c.status = .pending)
      · rw [if_pos h2]
        exact hc
      · rw [if_neg h2]
        exact (hmain _).2
  · intro salt entryId ts blockIds
    exact List.mem_cons_of_mem _ hc

/-- C3 witness: a concrete synced record in a two-item queue is not
selected and is still present, as the same record, after a full-retry
`syncNow`, after the auto-drain tick, and after an enqueue. -/
theorem synced_is_terminal_witness :
    (⟨"chg-s", "e1", [], .synced, "u1", 1, none, none⟩ ∉
      selectCandidates ⟨none, some true⟩
        [⟨"chg-s", "e1", [], .synced, "u1", 1, none, none⟩,
         ⟨"chg-p", "e1", [], .pending, "u2", 0, none, none⟩]) ∧
    (⟨"chg-s", "e1", [], .synced, "u1", 1, none, none⟩ ∈
      (syncNow (fun _ => .ok ()) "t1"
        ⟨[⟨"chg-s", "e1", [], .synced, "u1", 1, none, none⟩,
          ⟨"chg-p", "e1", [], .pending, "u2", 0, none, none⟩], false, false⟩
        ⟨none, some true⟩).queue) ∧
    (⟨"chg-s", "e1", [], .synced, "u1", 1, none, none⟩ ∈
      (autoDrainTick (fun _ => .ok ()) "t1"
        ⟨[⟨"chg-s", "e1", [], .synced, "u1", 1, none, none⟩,
          ⟨"chg-p", "e1", [], .pending, "u2", 0, none, none⟩], false, false⟩).queue) :=
  ⟨((synced_is_terminal (fun _ => .ok ()) "t1"
      ⟨[⟨"chg-s", "e1", [], .synced, "u1", 1, none, none⟩,
        ⟨"chg-p", "e1", [], .pending, "u2", 0, none, none⟩], false, false⟩
      (by decide) _ (by decide) rfl).1 ⟨none, some true⟩).1,
   ((synced_is_terminal (fun _ => .ok ()) "t1"
      ⟨[⟨"chg-s", "e1", [], .synced, "u1", 1, none, none⟩,
        ⟨"chg-p", "e1", [], .pending, "u2", 0, none, none⟩], false, false⟩
      (by decide) _ (by decide) rfl).1 ⟨none, some true⟩).2,
   (synced_is_terminal (fun _ => .ok ()) "t1"
      ⟨[⟨"chg-s", "e1", [], .synced, "u1", 1, none, none⟩,
        ⟨"chg-p", "e1", [], .pending, "u2", 0, none, none⟩], false, false⟩
      (by decide) _ (by decide) rfl).2.1⟩

/-- C5: No auto-retry of failures.  The auto-drain tick is a no-op while a
run is in flight or when no pending item exists; when it does fire it uses
`includeFailed := false`, so a failed item is never selected and survives
unchanged, while a pending item is advanced exactly once (attempts bumped
by one, ending synced or failed). -/
theorem no_auto_retry (remote : ChangeQueueItem → Except String Unit) (t : String)
    (s : SyncState) (hq : (s.queue.map (fun x => x.id)).Nodup)
    (hrun : s.syncRunning = false) :
    (s.syncing = true → autoDrainTick remote t s = s) ∧
    (∀ f ∈ s.queue, f.status = .failed →
      f ∉ selectCandidates ⟨none, some false⟩ s.queue ∧
      f ∈ (autoDrainTick remote t s).queue) ∧
    (s.syncing = false → ∀ p ∈ s.queue, p.status = .pending →
      ∃ p' ∈ (autoDrainTick remote t s).queue, p'.id = p.id ∧
        p'.attempts = p.attempts + 1 ∧
        (p'.status = .synced ∨ p'.status = .failed)) := by
  refine ⟨?_, ?_, ?_⟩
  · intro h
    unfold autoDrainTick
    rw [if_pos h]
  · intro f hf hfail
    have hfilter : candidateFilter ⟨none, some false⟩ f = false := by
      unfold candidateFilter
      rw [hfail]
      simp
    constructor
    · intro hmem
      have := List.of_mem_filter hmem
      rw [hfilter] at this
      exact absurd this (by decide)
    · unfold autoDrainTick
      by_cases h1 : s.syncing
      · rw [if_pos h1]
        exact hf
      · rw [if_neg h1]
        by_cases h2 : ¬ s.queue.any (fun c => c.status = .pending)
        · rw [if_pos h2]
          exact hf
        · rw [if_neg h2]
          exact mem_syncNow_of_not_candidate remote t s _ f hq hf hfilter
  · intro hsync p hp hpend
    have hfilterp : candidateFilter ⟨none, some false⟩ p = true := by
      unfold candidateFilter
      rw [hpend]
      simp
    have hpmem : p ∈ selectCandidates ⟨none, some false⟩ s.queue :=
      List.mem_filter.mpr ⟨hp, hfilterp⟩
    have hany : s.queue.any (fun c => c.status = .pending) = true :=
      List.any_eq_true.mpr ⟨p, hp, by rw [hpend]; decide⟩
    have htick : autoDrainTick remote t s =
        syncNow remote t s ⟨none, some false⟩ := by
      unfold autoDrainTick
      rw [if_neg (by rw [hsync]; exact Bool.false_ne_true),
          if_neg (by rw [hany]; exact fun h => h rfl)]
    have hemp : (selectCandidates ⟨none, some false⟩ s.queue).isEmpty = false := by
      cases h : (selectCandidates ⟨none, some false⟩ s.queue).isEmpty
      · rfl
      · have hnil := List.isEmpty_iff.mp h
        rw [hnil] at hpmem
        exact absurd hpmem (List.not_mem_nil p)
    have hqueue : (syncNow remote t s ⟨none, some false⟩).queue =
        s.queue.map (runStep remote t (selectCandidates ⟨none, some false⟩ s.queue)) := by
      unfold syncNow processSync
      rw [if_neg (by rw [hrun]; exact Bool.false_ne_true),
          if_neg (by rw [hemp]; exact Bool.false_ne_true)]
      exact foldl_processOne_eq_map remote t _ s.queue
    have hcount : ((selectCandidates ⟨none, some false⟩ s.queue).map
        (fun x => x.id)).count p.id = 1 := by
      have hsub : List.Sublist
          ((selectCandidates ⟨none, some false⟩ s.queue).map (fun x => x.id))
          (s.queue.map (fun x => x.id)) :=
        (List.filter_sublist s.queue).map (fun x => x.id)
      have hcle := hsub.count_le p.id
      have hone := List.nodup_iff_count_le_one.mp hq p.id
      have hpos : 0 < ((selectCandidates ⟨none, some false⟩ s.queue).map
          (fun x => x.id)).count p.id :=
        List.count_pos_iff.mpr (List.mem_map_of_mem (fun x => x.id) hpmem)
      omega
    obtain ⟨ch, hchmem, hchid, heq⟩ :=
      runStep_touch remote t (selectCandidates ⟨none, some false⟩ s.queue) p hcount
    refine ⟨runStep remote t (selectCandidates ⟨none, some false⟩ s.queue) p, ?_, ?_, ?_, ?_⟩
    · rw [htick, hqueue]
      exact List.mem_map_of_mem _ hp
    · exact runStep_id remote t _ p
    · rw [heq, markOutcome_markAttempt_attempts]
    · rw [heq]
      exact markOutcome_status _ _

/-- C5 witness: with a concrete failed item and an unrelated pending item
in the queue, the auto-drain tick leaves the failed item untouched (it is
not even selected) and advances the pending item exactly once. -/
theorem no_auto_retry_witness :
    (⟨"chg-f", "e1", [], .failed, "u1", 1, none, some "boom"⟩ ∉
      selectCandidates ⟨none, some false⟩
        [⟨"chg-f", "e1", [], .failed, "u1", 1, none, some "boom"⟩,
         ⟨"chg-p", "e2", [], .pending, "u2", 0, none, none⟩]) ∧
    (⟨"chg-f", "e1", [], .failed, "u1", 1, none, some "boom"⟩ ∈
      (autoDrainTick (fun _ => .ok ()) "t1"
        ⟨[⟨"chg-f", "e1", [], .failed, "u1", 1, none, some "boom"⟩,
          ⟨"chg-p", "e2", [], .pending, "u2", 0, none, none⟩], false, false⟩).queue) ∧
    (∃ p' ∈ (autoDrainTick (fun _ => .ok ()) "t1"
        ⟨[⟨"chg-f", "e1", [], .failed, "u1", 1, none, some "boom"⟩,
          ⟨"chg-p", "e2", [], .pending, "u2", 0, none, none⟩], false, false⟩).queue,
      p'.id = "chg-p" ∧ p'.attempts = 0 + 1 ∧
        (p'.status = .synced ∨ p'.status = .failed)) :=
  ⟨((no_auto_retry (fun _ => .ok ()) "t1"
      ⟨[⟨"chg-f", "e1", [], .failed, "u1", 1, none, some "boom"⟩,
        ⟨"chg-p", "e2", [], .pending, "u2", 0, none, none⟩], false, false⟩
      (by decide) rfl).2.1 ⟨"chg-f", "e1", [], .failed, "u1", 1, none, some "boom"⟩
      (by decide) rfl).1,
   ((no_auto_retry (fun _ => .ok ()) "t1"
      ⟨[⟨"chg-f", "e1", [], .failed, "u1", 1, none, some "boom"⟩,
        ⟨"chg-p", "e2", [], .pending, "u2", 0, none, none⟩], false, false⟩
      (by decide) rfl).2.1 ⟨"chg-f", "e1", [], .failed, "u1", 1, none, some "boom"⟩
      (by decide) rfl).2,
   (no_auto_retry (fun _ => .ok ()) "t1"
      ⟨[⟨"chg-f", "e1", [], .failed, "u1", 1, none, some "boom"⟩,
        ⟨"chg-p", "e2", [], .pending, "u2", 0, none, none⟩], false, false⟩
      (by decide) rfl).2.2 rfl ⟨"chg-p", "e2", [], .pending, "u2", 0, none, none⟩
      (by decide) rfl⟩

/-- C10: Implicit default of `syncNow`.  With `includeFailed` omitted the
selection is identical to an explicit `includeFailed := true`, and every
failed item passing the entry filter is selected -- omitting the flag
behaves like an explicit retry, unlike auto-drain's `includeFailed :=
false`. -/
theorem syncNow_includeFailed_default (q : List ChangeQueueItem) (eid : Option String) :
    selectCandidates ⟨eid, none⟩ q = selectCandidates ⟨eid, some true⟩ q ∧
    ∀ c ∈ q, c.status = .failed →
      (match eid with | some e => e = "" ∨ c.entryId = e | none => True) →
      c ∈ selectCandidates ⟨eid, none⟩ q := by
  constructor
  · unfold selectCandidates
    apply List.filter_congr
    intro c _
    rfl
  · intro c hc hfail hentry
    apply List.mem_filter.mpr
    refine ⟨hc, ?_⟩
    unfold candidateFilter
    rw [hfail]
    cases eid with
    | none => simp
    | some e =>
      rcases hentry with he | he
      · subst he
        simp
      · simp [he]

/-- C10 witness: a failed item is selected by `syncNow`'s candidate filter
when `includeFailed` is omitted. -/
theorem syncNow_includeFailed_default_witness :
    ⟨"chg-f", "e1", [], .failed, "u1", 1, none, some "boom"⟩ ∈
      selectCandidates ⟨none, none⟩
        [⟨"chg-f", "e1", [], .failed, "u1", 1, none, some "boom"⟩] :=
  (syncNow_includeFailed_default
      [⟨"chg-f", "e1", [], .failed, "u1", 1, none, some "boom"⟩] none).2
    _ (by decide) rfl trivial

/-- A char list with no leading and no trailing whitespace. -/
def noEdgeWs (m : List Char) : Prop :=
  (∀ c, m.head? = some c → wsChar c = false) ∧
  (∀ c, m.getLast? = some c → wsChar c = false)

theorem head?_dropWhile_ws (l : List Char) (c : Char)
    (h : (l.dropWhile wsChar).head? = some c) : wsChar c = false := by
  induction l with
  | nil => simp at h
  | cons a rest ih =>
    by_cases ha : wsChar a
    · rw [List.dropWhile_cons_of_pos ha] at h
      exact ih h
    · rw [List.dropWhile_cons_of_neg ha] at h
      have hac : a = c := by simpa using h
      subst hac
      exact Bool.eq_false_iff.mpr ha

theorem dropWhile_ws_eq_self (m : List Char)
    (h : ∀ c, m.head? = some c → wsChar c = false) : m.dropWhile wsChar = m := by
  cases m with
  | nil => rfl
  | cons a rest =>
    have ha := h a rfl
    rw [List.dropWhile_cons_of_neg (by simp [ha])]

theorem jsTrimList_of_noEdgeWs (m : List Char) (h : noEdgeWs m) :
    jsTrimList m = m := by
  unfold jsTrimList
  rw [dropWhile_ws_eq_self m h.1]
  rw [dropWhile_ws_eq_self m.reverse ?_]
  · exact List.reverse_reverse m
  · intro c hc
    rw [List.head?_reverse] at hc
    exact h.2 c hc

theorem noEdgeWs_jsTrimList (l : List Char) : noEdgeWs (jsTrimList l) := by
  unfold jsTrimList
  constructor
  · intro c hc
    rw [List.head?_reverse] at hc
    obtain ⟨w, hw⟩ := List.dropWhile_suffix (l := (l.dropWhile wsChar).reverse) (p := wsChar)
    have hne : (l.dropWhile wsChar).reverse.dropWhile wsChar ≠ [] := by
      intro h0
      rw [h0] at hc
      simp at hc
    have happ := List.getLast?_append_of_ne_nil w hne
    rw [hw] at happ
    rw [hc] at happ
    rw [List.getLast?_reverse] at happ
    exact head?_dropWhile_ws l c happ
  · intro c hc
    rw [List.getLast?_reverse] at hc
    exact head?_dropWhile_ws _ c hc

theorem collapseWsGo_head (m : List Char) (pw : Bool) (c : Char)
    (hhead : ∀ c', m.head? = some c' → wsChar c' = false)
    (h : (collapseWsGo m pw).head? = some c) : wsChar c = false := by
  cases m with
  | nil => simp [collapseWsGo] at h
  | cons a rest =>
    have ha := hhead a rfl
    rw [collapseWsGo, if_neg (by simp [ha])] at h
    have hac : a = c := by simpa using h
    subst hac
    exact ha

theorem collapseWsGo_getLast (m : List Char) :
    ∀ pw : Bool, (∀ c, m.getLast? = some c → wsChar c = false) →
      (collapseWsGo m pw).getLast? = m.getLast? := by
  induction m with
  | nil => intro pw _; rfl
  | cons a rest ih =>
    intro pw hlast
    cases rest with
    | nil =>
      have ha := hlast a rfl
      rw [collapseWsGo, if_neg (by simp [ha])]
      rfl
    | cons b rest2 =>
      have hlast2 : ∀ c, (b :: rest2).getLast? = some c → wsChar c = false := by
        intro c hc
        apply hlast
        rw [List.getLast?_cons_cons]
        exact hc
      have hlastcc : (a :: b :: rest2).getLast? = (b :: rest2).getLast? :=
        List.getLast?_cons_cons
      have hgoT := ih true hlast2
      have hgoF := ih false hlast2
      have hgoT_ne : collapseWsGo (b :: rest2) true ≠ [] := by
        have hs : (collapseWsGo (b :: rest2) true).getLast?.isSome := by
          rw [hgoT]
          exact List.getLast?_isSome.mpr (List.cons_ne_nil b rest2)
        exact List.getLast?_isSome.mp hs
      have hgoF_ne : collapseWsGo (b :: rest2) false ≠ [] := by
        have hs : (collapseWsGo (b :: rest2) false).getLast?.isSome := by
          rw [hgoF]
          exact List.getLast?_isSome.mpr (List.cons_ne_nil b rest2)
        exact List.getLast?_isSome.mp hs
      by_cases ha : wsChar a
      · by_cases hpw : pw
        · rw [collapseWsGo, if_pos ha, if_pos hpw, hgoT, hlastcc]
        · rw [collapseWsGo, if_pos ha, if_neg hpw]
          have : (' ' :: collapseWsGo (b :: rest2) true).getLast? =
              (collapseWsGo (b :: rest2) true).getLast? := by
            have := List.getLast?_append_of_ne_nil [' '] hgoT_ne
            simpa using this
          rw [this, hgoT, hlastcc]
      · rw [collapseWsGo, if_neg ha]
        have : (a :: collapseWsGo (b :: rest2) false).getLast? =
            (collapseWsGo (b :: rest2) false).getLast? := by
          have := List.getLast?_append_of_ne_nil [a] hgoF_ne
          simpa using this
        rw [this, hgoF, hlastcc]

theorem noEdgeWs_collapseWsGo (m : List Char) (h : noEdgeWs m) :
    noEdgeWs (collapseWsGo m false) := by
  constructor
  · intro c hc
    exact collapseWsGo_head m false c h.1 hc
  · intro c hc
    rw [collapseWsGo_getLast m false h.2] at hc
    exact h.2 c hc

/-- Trimming then collapsing whitespace yields a string that trimming
leaves unchanged: the cleaned title `createProject` stores is stable under
the re-trim performed by later title comparisons. -/
theorem jsTrim_cleaned (title : String) :
    jsTrim (collapseWs (jsTrim title)) = collapseWs (jsTrim title) :=
  congrArg String.mk
    (jsTrimList_of_noEdgeWs _ (noEdgeWs_collapseWsGo _ (noEdgeWs_jsTrimList _)))

/-- Unfolding of `createProject` on a non-empty cleaned title. -/
theorem createProject_eq (salt : String) (projects : List Project) (title : String)
    (h : collapseWs (jsTrim title) ≠ "") :
    createProject salt projects title =
      match projects.find? (fun p => (jsTrim p.title).toLower ==
          (collapseWs (jsTrim title)).toLower) with
      | some existing => .ok (existing.id, projects)
      | none => .ok ("proj-" ++ salt, projects ++
          [{ id := "proj-" ++ salt, labId := sampleDataFirstLabId,
             title := collapseWs (jsTrim title), tags := [] }]) := by
  unfold createProject
  rw [if_neg h]

/-- C8: Idempotent project creation.  `createProject` trims and collapses
whitespace in the title; an empty cleaned title fails with the validation
error and adds nothing; otherwise two consecutive calls with the same title
return the same id, the second call leaves the store unchanged, and when no
project matched beforehand the store ends up with exactly one project whose
title matches case-insensitively. -/
theorem createProject_idempotent (salt1 salt2 : String) (projects : List Project)
    (title : String) :
    (collapseWs (jsTrim title) = "" →
      createProject salt1 projects title = .error "Project name is required.") ∧
    (collapseWs (jsTrim title) ≠ "" →
      ∃ id1 ps1, createProject salt1 projects title = .ok (id1, ps1) ∧
        createProject salt2 ps1 title = .ok (id1, ps1) ∧
        (projects.find? (fun p => (jsTrim p.title).toLower ==
            (collapseWs (jsTrim title)).toLower) = none →
          (ps1.filter (fun p => (jsTrim p.title).toLower ==
            (collapseWs (jsTrim title)).toLower)).length = 1)) := by
  constructor
  · intro h
    unfold createProject
    rw [if_pos h]
  · intro h
    cases hfind : projects.find? (fun p => (jsTrim p.title).toLower ==
        (collapseWs (jsTrim title)).toLower) with
    | some existing =>
      refine ⟨existing.id, projects, ?_, ?_, ?_⟩
      · rw [createProject_eq salt1 projects title h, hfind]
      · rw [createProject_eq salt2 projects title h, hfind]
      · intro hnone
        exact Option.noConfusion hnone
    | none =>
      have hpred : ((jsTrim (collapseWs (jsTrim title))).toLower ==
          (collapseWs (jsTrim title)).toLower) = true := by
        rw [jsTrim_cleaned]
        exact beq_self_eq_true _
      refine ⟨"proj-" ++ salt1, projects ++
        [{ id := "proj-" ++ salt1, labId := sampleDataFirstLabId,
           title := collapseWs (jsTrim title), tags := [] }], ?_, ?_, ?_⟩
      · rw [createProject_eq salt1 projects title h, hfind]
      · rw [createProject_eq salt2 _ title h]
        rw [List.find?_append, hfind, Option.none_or]
        have hfind1 : List.find? (fun p : Project => (jsTrim p.title).toLower ==
            (collapseWs (jsTrim title)).toLower)
            ([{ id := "proj-" ++ salt1, labId := sampleDataFirstLabId,
                title := collapseWs (jsTrim title), tags := [] }] : List Project) =
            some { id := "proj-" ++ salt1, labId := sampleDataFirstLabId,
                   title := collapseWs (jsTrim title), tags := [] } := by
          simp [List.find?, hpred]
        rw [hfind1]
      · intro _
        rw [List.filter_append]
        have hfilter1 : projects.filter (fun p => (jsTrim p.title).toLower ==
            (collapseWs (jsTrim title)).toLower) = [] :=
          List.filter_eq_nil_iff.mpr (List.find?_eq_none.mp hfind)
        have hfilter2 : List.filter (fun p : Project => (jsTrim p.title).toLower ==
            (collapseWs (jsTrim title)).toLower)
            ([{ id := "proj-" ++ salt1, labId := sampleDataFirstLabId,
                title := collapseWs (jsTrim title), tags := [] }] : List Project) =
            [{ id := "proj-" ++ salt1, labId := sampleDataFirstLabId,
               title := collapseWs (jsTrim title), tags := [] }] := by
          simp [List.filter, hpred]
        rw [hfilter1, hfilter2]
        rfl

/-- C8 witness: creating `"Aim Lab"` twice from an empty store returns the
same id twice, the second call does not change the store, and the store
holds exactly one matching project. -/
theorem createProject_idempotent_witness :
    collapseWs (jsTrim "Aim Lab") ≠ "" ∧
    (∃ id1 ps1, createProject "s1" [] "Aim Lab" = .ok (id1, ps1) ∧
      createProject "s2" ps1 "Aim Lab" = .ok (id1, ps1) ∧
      (([] : List Project).find? (fun p => (jsTrim p.title).toLower ==
          (collapseWs (jsTrim "Aim Lab")).toLower) = none →
        (ps1.filter (fun p => (jsTrim p.title).toLower ==
          (collapseWs (jsTrim "Aim Lab")).toLower)).length = 1)) :=
  ⟨by decide, (createProject_idempotent "s1" "s2" [] "Aim Lab").2 (by decide)⟩

/-- A block whose attachment reference resolves neither through the export
path map nor through the attachments map ("dangling attachment"). -/
def danglingAttachmentRef (attachmentsById : List (String × Attachment))
    (attachmentExportPathById : List (String × String)) (b : Block) : Prop :=
  match b.variant with
  | .image aid _ => recordGet attachmentExportPathById aid = none ∧
      recordGet attachmentsById aid = none
  | .file aid _ => recordGet attachmentExportPathById aid = none ∧
      recordGet attachmentsById aid = none
  | _ => False

theorem missing_in_append_right (x y : String)
    (h : "missing".data <:+: y.data) : "missing".data <:+: (x ++ y).data := by
  rw [String.data_append]
  exact List.IsInfix.trans h (List.IsSuffix.isInfix (List.suffix_append _ _))

theorem blockMdParts_missing (attachmentsById : List (String × Attachment))
    (attachmentExportPathById : List (String × String)) (b : Block)
    (hd : danglingAttachmentRef attachmentsById attachmentExportPathById b) :
    ∃ part ∈ blockMdParts attachmentsById attachmentExportPathById b,
      "missing".data <:+: part.data := by
  rcases b with ⟨bid, u1, u2, lk, al, v⟩
  cases v with
  | image aid cap =>
    obtain ⟨h1, h2⟩ := hd
    refine ⟨"![" ++ escapeMd (cap.getD "image") ++ "](missing)", ?_,
      missing_in_append_right _ "](missing)" (by decide)⟩
    simp [blockMdParts, h1, h2]
  | file aid lbl =>
    obtain ⟨h1, h2⟩ := hd
    refine ⟨escapeMd (lbl.getD "file") ++ " (missing)", ?_,
      missing_in_append_right _ " (missing)" (by decide)⟩
    simp [blockMdParts, h1, h2]
  | heading t l r => exact False.elim hd
  | paragraph t r => exact False.elim hd
  | quote t r => exact False.elim hd
  | checklist items => exact False.elim hd
  | table d c hr => exact False.elim hd
  | divider => exact False.elim hd

theorem joinSep_mem_infix (parts : List String) (p : String) (hp : p ∈ parts) :
    p.data <:+: (joinSep "\n" parts).data := by
  induction parts with
  | nil => cases hp
  | cons q rest ih =>
    rcases List.mem_cons.mp hp with rfl | hmem
    · cases rest with
      | nil => exact List.infix_rfl
      | cons r rest2 =>
        show p.data <:+: (p ++ "\n" ++ joinSep "\n" (r :: rest2)).data
        rw [String.data_append, String.data_append, List.append_assoc]
        exact List.IsPrefix.isInfix (List.prefix_append _ _)
    · cases rest with
      | nil => cases hmem
      | cons r rest2 =>
        have hinf := ih hmem
        show p.data <:+: (q ++ "\n" ++ joinSep "\n" (r :: rest2)).data
        have hsuf : (joinSep "\n" (r :: rest2)).data <:+:
            (q ++ "\n" ++ joinSep "\n" (r :: rest2)).data := by
          rw [String.data_append]
          exact List.IsSuffix.isInfix (List.suffix_append _ _)
        exact List.IsInfix.trans hinf hsuf

theorem infix_dropWhile_ws (m : List Char) (hws : ∀ c ∈ m, wsChar c = false) :
    ∀ l : List Char, m <:+: l → m <:+: l.dropWhile wsChar := by
  intro l
  induction l with
  | nil =>
    intro h
    simpa using h
  | cons a rest ih =>
    intro h
    by_cases ha : wsChar a
    · rw [List.dropWhile_cons_of_pos ha]
      rcases List.infix_cons_iff.mp h with hpre | hinf
      · cases m with
        | nil => exact List.nil_infix
        | cons c mrest =>
          obtain ⟨t, ht⟩ := hpre
          have hca : c = a := by
            have := congrArg List.head? ht
            simpa using this
          have hcws := hws c (List.mem_cons_self c mrest)
          rw [hca] at hcws
          rw [hcws] at ha
          exact absurd ha (by decide)
      · exact ih hinf
    · rw [List.dropWhile_cons_of_neg ha]
      exact h

theorem infix_jsTrimList (m l : List Char) (h : m <:+: l)
    (hws : ∀ c ∈ m, wsChar c = false) : m <:+: jsTrimList l := by
  unfold jsTrimList
  have hmY : m.reverse <:+: (l.dropWhile wsChar).reverse.dropWhile wsChar := by
    apply infix_dropWhile_ws
    · intro c hc
      exact hws c (List.mem_reverse.mp hc)
    · exact List.reverse_infix.mpr (infix_dropWhile_ws m hws l h)
  have hfin := List.reverse_infix.mpr hmY
  rwa [List.reverse_reverse] at hfin

/-- C9: Export missing-attachment tolerance.  `blocksToMarkdown` is a total
function (the model never throws), and for any block list containing an
image or file block whose attachment id resolves neither through
`exportPathById` nor to a stored attachment, the output contains the
literal text `missing` as the placeholder. -/
theorem export_missing_attachment (blocks : List Block)
    (attachmentsById : List (String × Attachment))
    (attachmentExportPathById : List (String × String)) (b : Block)
    (hb : b ∈ blocks)
    (hd : danglingAttachmentRef attachmentsById attachmentExportPathById b) :
    "missing".data <:+:
      (blocksToMarkdown blocks attachmentsById attachmentExportPathById).data := by
  obtain ⟨part, hpmem, hpinf⟩ :=
    blockMdParts_missing attachmentsById attachmentExportPathById b hd
  have hparts : part ∈ blocks.flatMap
      (fun b => blockMdParts attachmentsById attachmentExportPathById b ++ [""]) :=
    List.mem_flatMap.mpr ⟨b, hb, List.mem_append_left _ hpmem⟩
  have hjoin := joinSep_mem_infix _ part hparts
  have hmiss := List.IsInfix.trans hpinf hjoin
  show "missing".data <:+:
    (jsTrim (joinSep "\n" (blocks.flatMap
      (fun b => blockMdParts attachmentsById attachmentExportPathById b ++ [""]))) ++
      "\n").data
  rw [String.data_append]
  refine List.IsInfix.trans ?_ (List.IsPrefix.isInfix (List.prefix_append _ _))
  show "missing".data <:+: jsTrimList (joinSep "\n" (blocks.flatMap
    (fun b => blockMdParts attachmentsById attachmentExportPathById b ++ [""]))).data
  exact infix_jsTrimList _ _ hmiss (by decide)

/-- C9 witness: exporting a single image block whose attachment id is
unknown yields output containing the literal text `missing`. -/
theorem export_missing_attachment_witness :
    "missing".data <:+:
      (blocksToMarkdown [{ id := "b1", variant := .image "att1" (some "Gel") }]
        [] []).data :=
  export_missing_attachment _ [] [] { id := "b1", variant := .image "att1" (some "Gel") }
    (by decide) ⟨rfl, rfl⟩

theorem sameMarks_text_right (a b : TextRun) (t : String) :
    sameMarks a { b with text := t } = sameMarks a b := rfl

/-- A run list is run-length-minimal: no two adjacent runs share identical
normalized `{bold, italic, underline}` formatting. -/
def runsMinimal (r : Option (List TextRun)) : Prop :=
  ∀ rs, r = some rs → List.Chain' (fun a b => sameMarks a b = false) rs

theorem mergeRuns_go_chain (runs : List TextRun) :
    ∀ acc : List TextRun,
      List.Chain' (fun a b => sameMarks b a = false) acc →
      List.Chain' (fun a b => sameMarks b a = false)
        (runs.foldl (fun out run =>
          match out with
          | prev :: rest =>
            if sameMarks prev run then { prev with text := prev.text ++ run.text } :: rest
            else run :: prev :: rest
          | [] => [run]) acc) := by
  induction runs with
  | nil =>
    intro acc h
    exact h
  | cons run rest ih =>
    intro acc h
    rw [List.foldl_cons]
    apply ih
    cases acc with
    | nil => exact List.chain'_singleton run
    | cons prev racc =>
      show List.Chain' (fun a b => sameMarks b a = false)
        (if sameMarks prev run then { prev with text := prev.text ++ run.text } :: racc
         else run :: prev :: racc)
      by_cases hs : sameMarks prev run
      · rw [if_pos hs]
        rcases List.chain'_cons'.mp h with ⟨hhead, htail⟩
        apply List.chain'_cons'.mpr
        refine ⟨?_, htail⟩
        intro y hy
        rw [sameMarks_text_right]
        exact hhead y hy
      · rw [if_neg hs]
        exact List.chain'_cons.mpr ⟨Bool.eq_false_iff.mpr hs, h⟩

theorem mergeRuns_minimal (runs : List TextRun) :
    List.Chain' (fun a b => sameMarks a b = false) (mergeRuns runs) := by
  unfold mergeRuns
  rw [List.chain'_reverse]
  exact mergeRuns_go_chain runs [] List.chain'_nil

theorem runsFromSlateChildren_minimal (children : List SlateNode) :
    runsMinimal (runsFromSlateChildren children) := by
  intro rs h
  simp only [runsFromSlateChildren] at h
  split at h
  · obtain rfl : mergeRuns _ = rs := by injection h
    exact mergeRuns_minimal _
  · exact Option.noConfusion h

/-- The concatenation of the texts of a run list (the invariant of §3:
`runs[].text` concatenates to the block's `text`). -/
def runsText : List TextRun → String
  | [] => ""
  | r :: rest => r.text ++ runsText rest

/-- The `runs`/`text` coherence invariant of the data model, as the
round-trip needs it: a non-empty `runs`, when present, concatenates to the
plain `text`. -/
def runsWF (runs : Option (List TextRun)) (text : String) : Prop :=
  ∀ rs, runs = some rs → rs ≠ [] → runsText rs = text

theorem stringList_map_leaf (rs : List TextRun) :
    SlateNode.stringList (rs.map fun r =>
      SlateNode.leaf r.text (normalizeMark r.bold) (normalizeMark r.italic)
        (normalizeMark r.underline)) = runsText rs := by
  induction rs with
  | nil => rfl
  | cons r rest ih =>
    simp only [List.map_cons]
    show SlateNode.string _ ++ SlateNode.stringList _ = _
    rw [ih]
    rfl

theorem stringList_children_text (runs : Option (List TextRun)) (fallback : String)
    (hwf : runsWF runs fallback) :
    SlateNode.stringList (slateTextChildrenFromRuns runs fallback) = fallback := by
  cases runs with
  | none =>
    show fallback ++ "" = fallback
    exact String.append_empty fallback
  | some rs =>
    cases rs with
    | nil =>
      show fallback ++ "" = fallback
      exact String.append_empty fallback
    | cons r rest =>
      rw [show slateTextChildrenFromRuns (some (r :: rest)) fallback =
        (r :: rest).map (fun r => SlateNode.leaf r.text (normalizeMark r.bold)
          (normalizeMark r.italic) (normalizeMark r.underline)) from rfl]
      rw [stringList_map_leaf]
      exact hwf (r :: rest) rfl (List.cons_ne_nil r rest)

/-- Well-formedness of a block as the data model states it: wherever both
`runs` and `text` are present, the non-empty `runs` concatenate to `text`. -/
def BlockWF (b : Block) : Prop :=
  match b.variant with
  | .heading text _ runs => runsWF runs text
  | .paragraph text runs => runsWF runs text
  | .quote text runs => runsWF runs text
  | .checklist items => ∀ item ∈ items, runsWF item.runs item.text
  | _ => True

/-- What the editor round-trip actually preserves, per block: the id and
the variant constructor always; `text` for heading/paragraph/quote; the
`id`/`text`/`done` of checklist items (`timerMinutes` is dropped); `data`
for tables; image/file/divider blocks verbatim.  A heading's `level` is
preserved when it is 3, and collapses to 2 otherwise (level 1 or absent
becomes 2).  Any `runs` field present after the round-trip is
run-length-minimal. -/
def roundTripMatches (orig out : Block) : Prop :=
  out.id = orig.id ∧
  match orig.variant, out.variant with
  | .heading t lvl _, .heading t2 l2 r2 =>
      t2 = t ∧ l2 = some (if lvl = some 3 then 3 else 2) ∧ runsMinimal r2
  | .paragraph t _, .paragraph t2 r2 => t2 = t ∧ runsMinimal r2
  | .quote t _, .quote t2 r2 => t2 = t ∧ runsMinimal r2
  | .checklist items, .checklist items2 =>
      items2.map (fun i => (i.id, i.text, i.done)) =
        items.map (fun i => (i.id, i.text, i.done)) ∧
      ∀ i ∈ items2, runsMinimal i.runs
  | .table d _ _, .table d2 _ _ => d2 = d
  | .image _ _, _ => out = orig
  | .file _ _, _ => out = orig
  | .divider, _ => out = orig
  | _, _ => False

theorem checklist_items_roundtrip (fresh : String) (items : List ChecklistItem) :
    ((items.map fun item =>
        SlateNode.element "check-item" none (some item.id) false item.done none none
          (slateTextChildrenFromRuns item.runs item.text)).filterMap fun child =>
      match child with
      | .element _ _ cItemId _ cDone _ _ cChildren =>
        some { id := cItemId.getD ("ci-" ++ fresh),
               text := SlateNode.stringList cChildren, done := cDone,
               timerMinutes := none, runs := runsFromSlateChildren cChildren }
      | .leaf .. => none) =
    items.map fun item =>
      ({ id := item.id,
         text := SlateNode.stringList (slateTextChildrenFromRuns item.runs item.text),
         done := item.done, timerMinutes := none,
         runs := runsFromSlateChildren (slateTextChildrenFromRuns item.runs item.text) } :
        ChecklistItem) := by
  induction items with
  | nil => rfl
  | cons i rest ih =>
    simp only [List.map_cons, List.filterMap_cons]
    exact congrArg (List.cons _) ih

theorem roundTrip_block (fresh : String) (b : Block) (hw : BlockWF b) :
    roundTripMatches b (slateNodeToBlock fresh (blockToSlate b)) := by
  rcases b with ⟨bid, u1, u2, lk, al, v⟩
  cases v with
  | heading t lvl runs =>
    have hw' : runsWF runs t := hw
    by_cases h3 : lvl = some 3
    · subst h3
      refine ⟨rfl, stringList_children_text runs t hw', ?_,
        runsFromSlateChildren_minimal _⟩
      rfl
    · have hb3 : (lvl == some 3) = false := beq_eq_false_iff_ne.mpr h3
      have hty : blockToSlate ⟨bid, u1, u2, lk, al, .heading t lvl runs⟩ =
          .element "heading-two" (some bid) none (lk == some true) false al none
            (slateTextChildrenFromRuns runs t) := by
        simp [blockToSlate, hb3]
      rw [hty]
      refine ⟨rfl, stringList_children_text runs t hw', ?_,
        runsFromSlateChildren_minimal _⟩
      rw [if_neg h3]
  | paragraph t runs =>
    have hw' : runsWF runs t := hw
    exact ⟨rfl, stringList_children_text runs t hw', runsFromSlateChildren_minimal _⟩
  | quote t runs =>
    have hw' : runsWF runs t := hw
    exact ⟨rfl, stringList_children_text runs t hw', runsFromSlateChildren_minimal _⟩
  | checklist items =>
    have hw' : ∀ item ∈ items, runsWF item.runs item.text := hw
    refine ⟨rfl, ?_, ?_⟩
    · rw [checklist_items_roundtrip fresh items, List.map_map]
      apply List.map_congr_left
      intro i hi
      show (_, SlateNode.stringList (slateTextChildrenFromRuns i.runs i.text), _) =
        (i.id, i.text, i.done)
      rw [stringList_children_text i.runs i.text (hw' i hi)]
    · intro i2 hi2
      rw [checklist_items_roundtrip fresh items] at hi2
      obtain ⟨i, hi, rfl⟩ := List.mem_map.mp hi2
      exact runsFromSlateChildren_minimal _
  | table d cap hr => exact ⟨rfl, rfl⟩
  | image aid c2 => exact ⟨rfl, rfl⟩
  | file aid l2 => exact ⟨rfl, rfl⟩
  | divider => exact ⟨rfl, rfl⟩

/-- C7 (amended): editor round-trip.  For any block list satisfying the
data model's runs/text invariant, `fromEditableTree (toEditableTree B)`
preserves each block's id and variant; the `text` of
heading/paragraph/quote blocks; the id, text and done flag of checklist
items (timerMinutes is dropped); table `data`; and image/file/divider
blocks verbatim.  Heading `level` is preserved when it is 3 and collapses
to 2 otherwise, and every `runs` present after the round-trip is
run-length-minimal. -/
theorem editor_round_trip_amended (fresh : String) (B : List Block)
    (hwf : ∀ b ∈ B, BlockWF b) :
    List.Forall₂ roundTripMatches B (slateToBlocks fresh (blocksToSlate B)) := by
  unfold slateToBlocks blocksToSlate
  rw [List.map_map, List.forall₂_map_right_iff]
  apply List.forall₂_same.mpr
  intro b hb
  exact roundTrip_block fresh b (hwf b hb)

/-- C7 counterexample: the round-trip does not reproduce all
variant-specific content fields exactly, as claimed.  A level-1 heading
comes back as a level-2 heading (`blocksToSlate` maps every non-3 level to
`heading-two`, and `slateToBlocks` reads `heading-two` back as level 2), so
the output list differs from the input list. -/
theorem editor_round_trip_counterexample :
    ((slateToBlocks "z" (blocksToSlate
        [{ id := "h1", variant := .heading "Title" (some 1) none }])).map
      (fun b => match b.variant with | .heading _ lvl _ => lvl | _ => none) =
        [some 2]) ∧
    (([{ id := "h1", variant := .heading "Title" (some 1) none }] : List Block).map
      (fun b => match b.variant with | .heading _ lvl _ => lvl | _ => none) =
        [some 1]) ∧
    slateToBlocks "z" (blocksToSlate
        [{ id := "h1", variant := .heading "Title" (some 1) none }]) ≠
      [{ id := "h1", variant := .heading "Title" (some 1) none }] := by
  decide

/-- C7 witness: a concrete well-formed block list run through the amended
round-trip statement. -/
theorem editor_round_trip_amended_witness :
    List.Forall₂ roundTripMatches
      [{ id := "h2", variant := .heading "Hi" (some 2) none }]
      (slateToBlocks "z" (blocksToSlate
        [{ id := "h2", variant := .heading "Hi" (some 2) none }])) :=
  editor_round_trip_amended "z" _ (by
    intro b hb
    rw [List.mem_singleton] at hb
    subst hb
    exact fun rs h _ => Option.noConfusion h)
